import Mathlib

/-!
Verification of the squad-construction, lineup-selection and transfer-planning
core of `fpl_auto_bot.py` against its natural-language specification.

The Python source is shallowly embedded below:

* pandas rows become the structures `RawPlayer` (raw bootstrap data) and
  `Player` (a scored row: the columns of the frame that the selection
  functions actually read);
* Python floats are modelled exactly as rationals (`ℚ`);
* `now_cost` is a non-negative integer number of price tenths, modelled by
  `Nat` (the data model fixes costs and the budget to be non-negative);
* `sort_values('score', ascending=False)` is modelled by a sort that is
  descending on `score` (`List.insertionSort` with the reversed order); every
  theorem below depends only on the output being a score-descending
  permutation of its input, which any implementation of `sort_values`
  guarantees;
* Python code that raises (`iloc` on a too-short frame) is modelled with
  `Option`, `none` standing for the raised `IndexError`.
-/

/-- Raw candidate record: the fields of one row of `bootstrap['elements']`
that `build_player_table` and `score_players` read.  Numeric free-text fields
(`ep_next`, `form`, `ict_index`) are `Option ℚ`; `none` models a value that
`float(x)` rejects, which the source's `fnum` maps to `0.0`. -/
structure RawPlayer where
  id : Nat
  element_type : Nat
  team : Nat
  now_cost : Nat
  ep_next : Option ℚ
  form : Option ℚ
  ict_index : Option ℚ
  status : String
  news : String
  web_name : String

/-- Scored candidate row: the columns that `pick_squad` and `pick_xi` read
(`id`, `element_type`, `team`, `now_cost_i`, `score`). -/
structure Player where
  id : Nat
  element_type : Nat
  team : Nat
  cost : Nat
  score : ℚ
deriving DecidableEq

/-- Embedding of the source's `fnum`: `float(x)` with a `try/except` that
returns `0.0` on failure. -/
def fnum : Option ℚ → ℚ
  | some q => q
  | none => 0

/-- Lower-casing of one ASCII character, the relevant fragment of Python's
`str.lower` for this data. -/
def lowerChar (c : Char) : Char :=
  if 'A' ≤ c ∧ c ≤ 'Z' then Char.ofNat (c.toNat + 32) else c

/-- Lower-casing of a string (Python `str.lower`). -/
def lowerStr (s : String) : String :=
  ⟨s.data.map lowerChar⟩

/-- Leading-segment test on character lists (helper for the substring
test below). -/
def leadsList : List Char → List Char → Bool
  | [], _ => true
  | _ :: _, [] => false
  | a :: as, b :: bs => a == b && leadsList as bs

/-- Substring test on character lists. -/
def containsSubChars (needle : List Char) : List Char → Bool
  | [] => leadsList needle []
  | c :: rest => leadsList needle (c :: rest) || containsSubChars needle rest

/-- Substring test on strings, used for the pandas `str.contains` regex
match (the regex `injury|doubt|knock|illness|suspend` is a plain
alternation of literals, i.e. a substring test for each keyword). -/
def containsSub (needle hay : String) : Bool :=
  containsSubChars needle.data hay.data

/-- Hazard keywords of the `str.contains` regex in `build_player_table`. -/
def hazardKeywords : List String :=
  ["injury", "doubt", "knock", "illness", "suspend"]

/-- Case-insensitive hazard-keyword match against the `news` column
(`case=False` lowers the haystack; the keywords are already lower case). -/
def hasInjuryNews (news : String) : Bool :=
  hazardKeywords.any (fun kw => containsSub kw (lowerStr news))

/-- Embedding of the `avail_mult` assignment sequence of
`build_player_table`:

`els['avail_mult'] = 0.6`;
`els.loc[(els['status']=='a') & (~injury), 'avail_mult'] = 1.0`;
`els.loc[injury, 'avail_mult'] = 0.3`.

The three overwrites are modelled in the same order, so the last assignment
(hazard keyword) wins, exactly as in the frame. -/
def availMult (status news : String) : ℚ :=
  let injury := hasInjuryNews news
  let m0 : ℚ := 6 / 10
  let m1 : ℚ := if status = "a" ∧ injury = false then 1 else m0
  if injury = true then 3 / 10 else m1

/-- Position multiplier map `{1:0.9, 2:1.05, 3:1.1, 4:1.0}` of
`score_players`; positions outside the map are never produced by the
upstream data (the pandas `map` would yield `NaN` there). -/
def posMult (t : Nat) : ℚ :=
  match t with
  | 1 => 9 / 10
  | 2 => 21 / 20
  | 3 => 11 / 10
  | 4 => 1
  | _ => 0

/-- Embedding of the score computed by `score_players` for one row:
`base = (ep_next_f*10 + form_f*2 + ict_f*0.8) * avail_mult`, then
`score = base * pos_mult + sentiment.get(web_name.lower(), 0.0)`.
The sentiment dict is modelled as an association list. -/
def playerScore (r : RawPlayer) (sentiment : List (String × ℚ)) : ℚ :=
  (fnum r.ep_next * 10 + fnum r.form * 2 + fnum r.ict_index * (8 / 10))
      * availMult r.status r.news * posMult r.element_type
    + ((sentiment.lookup (lowerStr r.web_name)).getD 0)

/-- Row of the scored frame produced from a raw record. -/
def mkPlayer (r : RawPlayer) (sentiment : List (String × ℚ)) : Player :=
  ⟨r.id, r.element_type, r.team, r.now_cost, playerScore r sentiment⟩

/-- C2 (counterexample).  The claim states that a candidate whose status
flag is inactive AND whose note matches a hazard keyword receives the
unavailable multiplier `0.6`.  On the source the hazard-keyword overwrite
comes last, so such a candidate (status `"i"`, news `"injury"`) receives
`0.3`, not `0.6`. -/
theorem availMult_inactive_injured_gets_doubtful :
    availMult "i" "injury" = 3 / 10 ∧ ¬ availMult "i" "injury" = 6 / 10 := by
  have h : hasInjuryNews "injury" = true := by decide
  constructor
  · simp [availMult, h]
  · simp [availMult, h]
    norm_num

/-- C2 (amended).  Availability multipliers are derived in this order: if
any hazard keyword matches the free-text note the multiplier is `0.3`
(doubtful), regardless of the status flag; otherwise, if the status flag is
`"a"` the multiplier is `1.0` (available); otherwise it is `0.6`
(unavailable).  In particular an inactive candidate with a hazard-matching
note receives the doubtful multiplier `0.3`. -/
theorem availMult_derivation (status news : String) :
    availMult status news =
      if hasInjuryNews news = true then 3 / 10
      else if status = "a" then 1 else 6 / 10 := by
  unfold availMult
  cases h : hasInjuryNews news <;> simp [h]

/-- C4.  For every raw candidate and every auxiliary signal map, the score
equals `(projected_value*10 + recent_form*2 + influence_index*0.8)`
multiplied by the availability multiplier and the per-position multiplier
`(1 ↦ 0.9, 2 ↦ 1.05, 3 ↦ 1.1, 4 ↦ 1.0)`, plus the auxiliary-signal value
looked up under the lowercased name key, defaulting to `0.0` when the key
is absent. -/
theorem playerScore_formula (r : RawPlayer) (sentiment : List (String × ℚ))
    (h : r.element_type = 1 ∨ r.element_type = 2 ∨ r.element_type = 3 ∨ r.element_type = 4) :
    playerScore r sentiment =
      (fnum r.ep_next * 10 + fnum r.form * 2 + fnum r.ict_index * (8 / 10))
          * availMult r.status r.news
          * (if r.element_type = 1 then 9 / 10
             else if r.element_type = 2 then 21 / 20
             else if r.element_type = 3 then 11 / 10 else 1)
        + ((sentiment.lookup (lowerStr r.web_name)).getD 0) := by
  rcases h with h | h | h | h <;> simp [playerScore, posMult, h]

/-- Sample raw record used to instantiate `playerScore_formula`. -/
def rawSample : RawPlayer :=
  ⟨7, 3, 2, 85, some 4, some (7 / 2), some 20, "a", "", "salah"⟩

/-- Witness for C4: `playerScore_formula` applied at a concrete midfielder
with a populated sentiment map. -/
theorem playerScore_formula_witness :
    (rawSample.element_type = 1 ∨ rawSample.element_type = 2 ∨
      rawSample.element_type = 3 ∨ rawSample.element_type = 4) ∧
    playerScore rawSample [("salah", 2)] =
      (fnum rawSample.ep_next * 10 + fnum rawSample.form * 2 +
            fnum rawSample.ict_index * (8 / 10))
          * availMult rawSample.status rawSample.news
          * (if rawSample.element_type = 1 then 9 / 10
             else if rawSample.element_type = 2 then 21 / 20
             else if rawSample.element_type = 3 then 11 / 10 else 1)
        + (([("salah", (2 : ℚ))].lookup (lowerStr rawSample.web_name)).getD 0) :=
  ⟨Or.inr (Or.inr (Or.inl rfl)),
    playerScore_formula rawSample [("salah", 2)] (Or.inr (Or.inr (Or.inl rfl)))⟩

/-- Embedding of the second `desired`-building loop of the GW2+ path of
`weekly_routine`: walk the ranked target list, break once `desired` holds
15 ids, and append each id not already present. -/
def desiredLoop : List Nat → List Nat → List Nat
  | [], d => d
  | pid :: rest, d =>
    if 15 ≤ d.length then d
    else if pid ∈ d then desiredLoop rest d
    else desiredLoop rest (d ++ [pid])

/-- Embedding of the `desired` roster computation of `weekly_routine`
(GW2+ path): the first loop keeps every target id that is currently owned,
in target order; the second loop tops the list up from the target. -/
def desiredRoster (current target : List Nat) : List Nat :=
  desiredLoop target (target.filter (fun pid => decide (pid ∈ current)))

/-- Embedding of the `outs` loop of `weekly_routine`: currently owned ids
not in `desired`, in roster order, while fewer than `free_left` have been
taken, and nothing at all when `free_left <= 0`. -/
def plannedOuts (current desired : List Nat) (free : Int) : List Nat :=
  if 0 < free then
    (current.filter (fun pid => decide (¬ pid ∈ desired))).take free.toNat
  else []

/-- Embedding of the `ins` loop of `weekly_routine`: desired ids not
currently owned, in desired (target-rank) order, capped the same way. -/
def plannedIns (current desired : List Nat) (free : Int) : List Nat :=
  if 0 < free then
    (desired.filter (fun pid => decide (¬ pid ∈ current))).take free.toNat
  else []

/-- Embedding of the `transfers` construction of `weekly_routine`: the
(out, in) pairs are formed only when `len(outs) == len(ins)` and the
common length is positive; otherwise the plan is empty. -/
def transfersPlan (current target : List Nat) (free : Int) : List (Nat × Nat) :=
  if (plannedOuts current (desiredRoster current target) free).length =
        (plannedIns current (desiredRoster current target) free).length ∧
      0 < (plannedIns current (desiredRoster current target) free).length then
    (plannedOuts current (desiredRoster current target) free).zip
      (plannedIns current (desiredRoster current target) free)
  else []

/-- C6.  For every current roster and target list, the plan is either empty
or a non-empty pairing of the computed outs with the computed ins, with
equally many of each; and whenever `free_transfers_left <= 0` the plan is
empty, however much the roster differs from the target. -/
theorem transfersPlan_shape (current target : List Nat) (free : Int) :
    (free ≤ 0 → transfersPlan current target free = []) ∧
    (transfersPlan current target free = [] ∨
      ((transfersPlan current target free).map Prod.fst =
          plannedOuts current (desiredRoster current target) free ∧
        (transfersPlan current target free).map Prod.snd =
          plannedIns current (desiredRoster current target) free ∧
        (plannedOuts current (desiredRoster current target) free).length =
          (plannedIns current (desiredRoster current target) free).length ∧
        transfersPlan current target free ≠ [])) := by
  constructor
  · intro hfree
    have h1 : plannedOuts current (desiredRoster current target) free = [] := by
      unfold plannedOuts
      rw [if_neg (by omega)]
    have h2 : plannedIns current (desiredRoster current target) free = [] := by
      unfold plannedIns
      rw [if_neg (by omega)]
    unfold transfersPlan
    rw [h1, h2]
    simp
  · unfold transfersPlan
    by_cases hc :
        (plannedOuts current (desiredRoster current target) free).length =
            (plannedIns current (desiredRoster current target) free).length ∧
          0 < (plannedIns current (desiredRoster current target) free).length
    · right
      rw [if_pos hc]
      refine ⟨List.map_fst_zip _ _ (le_of_eq hc.1), List.map_snd_zip _ _ (ge_of_eq hc.1), hc.1, ?_⟩
      have hlen : ((plannedOuts current (desiredRoster current target) free).zip
          (plannedIns current (desiredRoster current target) free)).length =
          (plannedIns current (desiredRoster current target) free).length := by
        rw [List.length_zip, hc.1, Nat.min_self]
      exact List.ne_nil_of_length_pos (hlen ▸ hc.2)
    · left
      rw [if_neg hc]

/-- Witness for C6: with no free transfers left the plan is empty even
though the roster and the target share nothing. -/
theorem transfersPlan_shape_witness : transfersPlan [1, 2] [3, 4] 0 = [] :=
  (transfersPlan_shape [1, 2] [3, 4] 0).1 (by omega)

/-- C7.  With one free transfer left and a roster differing from the
desired roster in exactly two members (one owned-but-undesired id `o`, one
desired-but-unowned id `i`), the plan is exactly the single pair `(o, i)`. -/
theorem transfersPlan_single_swap (current target : List Nat) (o i : Nat)
    (ho : current.filter (fun x => decide (¬ x ∈ desiredRoster current target)) = [o])
    (hi : (desiredRoster current target).filter (fun x => decide (¬ x ∈ current)) = [i]) :
    transfersPlan current target 1 = [(o, i)] := by
  have h1 : plannedOuts current (desiredRoster current target) 1 = [o] := by
    unfold plannedOuts
    rw [if_pos (by omega), ho]
    rfl
  have h2 : plannedIns current (desiredRoster current target) 1 = [i] := by
    unfold plannedIns
    rw [if_pos (by omega), hi]
    rfl
  unfold transfersPlan
  rw [h1, h2]
  simp

/-- Witness for C7: roster `[1, 2]`, target `[1, 3]`; the desired roster is
`[1, 3]`, the only out is `2`, the only in is `3`, and the plan is the
single swap `(2, 3)`. -/
theorem transfersPlan_single_swap_witness :
    [2].filter (fun x => decide (¬ x ∈ desiredRoster [1, 2] [1, 3])) ≠ [] ∧
    transfersPlan [1, 2] [1, 3] 1 = [(2, 3)] :=
  ⟨by decide, transfersPlan_single_swap [1, 2] [1, 3] 2 3 (by decide) (by decide)⟩

/-- Characterisation of the top-up loop: provided the pending ids are
distinct and an id is already present exactly when it is owned, the loop
appends the unowned pending ids in order, until the list reaches 15. -/
theorem desiredLoop_eq_take (current : List Nat) (rest : List Nat) :
    ∀ d : List Nat, rest.Nodup → (∀ x ∈ rest, (x ∈ d ↔ x ∈ current)) →
      desiredLoop rest d =
        d ++ (rest.filter (fun x => decide (¬ x ∈ current))).take (15 - d.length) := by
  induction rest with
  | nil =>
    intro d _ _
    simp [desiredLoop]
  | cons pid rest ih =>
    intro d hnd hmem
    rw [desiredLoop]
    by_cases h15 : 15 ≤ d.length
    · rw [if_pos h15, Nat.sub_eq_zero_of_le h15]
      simp
    · rw [if_neg h15]
      have hd := hmem pid (List.mem_cons_self pid rest)
      have hnd' := List.nodup_cons.mp hnd
      by_cases hpid : pid ∈ d
      · rw [if_pos hpid]
        have hcur : pid ∈ current := hd.mp hpid
        rw [ih d hnd'.2 (fun x hx => hmem x (List.mem_cons_of_mem _ hx))]
        rw [List.filter_cons]
        simp [hcur]
      · rw [if_neg hpid]
        have hcur : ¬ pid ∈ current := fun hc => hpid (hd.mpr hc)
        have hmem' : ∀ x ∈ rest, (x ∈ d ++ [pid] ↔ x ∈ current) := by
          intro x hx
          constructor
          · intro hxd
            rcases List.mem_append.mp hxd with hx1 | hx1
            · exact (hmem x (List.mem_cons_of_mem _ hx)).mp hx1
            · exfalso
              have : x = pid := by simpa using hx1
              exact hnd'.1 (this ▸ hx)
          · intro hxc
            exact List.mem_append_left _ ((hmem x (List.mem_cons_of_mem _ hx)).mpr hxc)
        rw [ih (d ++ [pid]) hnd'.2 hmem']
        have hkeep : List.filter (fun x => decide (¬ x ∈ current)) (pid :: rest) =
            pid :: List.filter (fun x => decide (¬ x ∈ current)) rest := by
          simp [List.filter_cons, hcur]
        rw [hkeep]
        simp only [List.length_append, List.length_singleton]
        obtain ⟨k, hk⟩ : ∃ k, 15 - d.length = k + 1 := ⟨15 - d.length - 1, by omega⟩
        have hk' : 15 - (d.length + 1) = k := by omega
        rw [hk, hk', List.take_succ_cons, List.append_assoc]
        rfl

/-- C8.  For every current roster and duplicate-free ranked target list,
the desired roster of the transfer planner equals: every owned id that
appears in the target list, in target rank order, followed by the unowned
target ids, in target rank order, truncated so that the result stops at 15
ids (or when the target list is exhausted). -/
theorem desiredRoster_spec (current target : List Nat) (h : target.Nodup) :
    desiredRoster current target =
      target.filter (fun x => decide (x ∈ current)) ++
        (target.filter (fun x => decide (¬ x ∈ current))).take
          (15 - (target.filter (fun x => decide (x ∈ current))).length) := by
  unfold desiredRoster
  exact desiredLoop_eq_take current target _ h
    (fun x hx => by simp [List.mem_filter, hx])

/-- Witness for C8: a concrete duplicate-free target `[1, 2, 3]` against
the roster `[3, 1]`. -/
theorem desiredRoster_spec_witness :
    ([1, 2, 3] : List Nat).Nodup ∧
    desiredRoster [3, 1] [1, 2, 3] =
      [1, 2, 3].filter (fun x => decide (x ∈ ([3, 1] : List Nat))) ++
        ([1, 2, 3].filter (fun x => decide (¬ x ∈ ([3, 1] : List Nat)))).take
          (15 - ([1, 2, 3].filter (fun x => decide (x ∈ ([3, 1] : List Nat)))).length) :=
  ⟨by decide, desiredRoster_spec [3, 1] [1, 2, 3] (by decide)⟩

/-- Club cap of the source (`MAX_PER_CLUB = 3`). -/
def MAX_PER_CLUB : Nat := 3

/-- Budget of the source in price tenths (`BUDGET_TENTHS = 1000`). -/
def BUDGET_TENTHS : Nat := 1000

/-- Squad shape of the source (`SQUAD_SHAPE = {1:2, 2:5, 3:5, 4:3}`); the
`defaultdict`-style fallthrough for other keys never occurs upstream. -/
def SQUAD_SHAPE (pos : Nat) : Nat :=
  if pos = 1 then 2 else if pos = 2 then 5 else if pos = 3 then 5
  else if pos = 4 then 3 else 0

/-- Lineup minima of the source (`XI_MINIMA = {1:1, 2:3, 3:2, 4:1}`). -/
def XI_MINIMA (pos : Nat) : Nat :=
  if pos = 1 then 1 else if pos = 2 then 3 else if pos = 3 then 2
  else if pos = 4 then 1 else 0

/-- Descending-score order used to model `sort_values('score',
ascending=False)`. -/
def scoreGe (a b : Player) : Prop := b.score ≤ a.score

instance : DecidableRel scoreGe :=
  fun a b => inferInstanceAs (Decidable (b.score ≤ a.score))

instance : IsTotal Player scoreGe := ⟨fun a b => le_total b.score a.score⟩

instance : IsTrans Player scoreGe := ⟨fun _ _ _ h1 h2 => le_trans h2 h1⟩

/-- Model of `sort_values('score', ascending=False)`: a score-descending
permutation of the frame rows. -/
def sortDesc (l : List Player) : List Player := List.insertionSort scoreGe l

/-- State threaded through the greedy squad selection of `pick_squad`: the
rows accepted so far (the source keeps only their ids; keeping whole rows
lets the theorems speak about costs, clubs and positions), the per-club
counter `club_ct`, and the `remaining` budget. -/
structure SelSt where
  sel : List Player
  clubCt : Nat → Nat
  remaining : Nat

/-- Counter increment (`club_ct[team] += 1`, `pos_ct[p] += 1`). -/
def bump (f : Nat → Nat) (t : Nat) : Nat → Nat :=
  fun q => if q = t then f q + 1 else f q

/-- Embedding of the inner loop of `pick_squad` for one position: walk the
sorted pool, break once the position needs no more members, skip a row
whose club is at the cap, accept a row whose cost fits the remaining
budget (decrementing budget and need, incrementing the club counter). -/
def pickLoop : List Player → Nat → SelSt → SelSt
  | [], _, st => st
  | p :: rest, need, st =>
    if need = 0 then st
    else if MAX_PER_CLUB ≤ st.clubCt p.team then pickLoop rest need st
    else if p.cost ≤ st.remaining then
      pickLoop rest (need - 1) ⟨st.sel ++ [p], bump st.clubCt p.team, st.remaining - p.cost⟩
    else pickLoop rest need st

/-- Position pool of `pick_squad`: the rows of one position,
score-descending. -/
def posPool (els : List Player) (pos : Nat) : List Player :=
  sortDesc (els.filter (fun p => decide (p.element_type = pos)))

/-- Embedding of `pick_squad`: positions processed in the fixed order
`[1, 2, 3, 4]`, threading accepted rows, club counts and budget. -/
def pickSquadSt (els : List Player) (budget : Nat) : SelSt :=
  [1, 2, 3, 4].foldl (fun st pos => pickLoop (posPool els pos) (SQUAD_SHAPE pos) st)
    ⟨[], fun _ => 0, budget⟩

/-- Value returned by `pick_squad`: the accepted ids in acceptance order. -/
def pick_squad (els : List Player) (budget : Nat) : List Nat :=
  (pickSquadSt els budget).sel.map Player.id

/-- Budget conservation of the greedy loop: accepted cost plus remaining
budget is invariant. -/
theorem pickLoop_budget (pool : List Player) :
    ∀ (need : Nat) (st : SelSt),
      ((pickLoop pool need st).sel.map Player.cost).sum + (pickLoop pool need st).remaining =
        (st.sel.map Player.cost).sum + st.remaining := by
  induction pool with
  | nil => intro need st; rfl
  | cons p rest ih =>
    intro need st
    rw [pickLoop]
    by_cases h0 : need = 0
    · rw [if_pos h0]
    · rw [if_neg h0]
      by_cases hclub : MAX_PER_CLUB ≤ st.clubCt p.team
      · rw [if_pos hclub]; exact ih need st
      · rw [if_neg hclub]
        by_cases hcost : p.cost ≤ st.remaining
        · rw [if_pos hcost, ih]
          simp [List.sum_append]
          omega
        · rw [if_neg hcost]; exact ih need st

/-- Club-count invariant of the greedy loop: the counter stays a faithful
count of the accepted rows per club and never exceeds the cap. -/
theorem pickLoop_club (pool : List Player) :
    ∀ (need : Nat) (st : SelSt),
      ((∀ t, st.clubCt t = (st.sel.filter (fun p => decide (p.team = t))).length) ∧
        (∀ t, st.clubCt t ≤ MAX_PER_CLUB)) →
      ((∀ t, (pickLoop pool need st).clubCt t =
          ((pickLoop pool need st).sel.filter (fun p => decide (p.team = t))).length) ∧
        (∀ t, (pickLoop pool need st).clubCt t ≤ MAX_PER_CLUB)) := by
  induction pool with
  | nil => intro need st h; exact h
  | cons p rest ih =>
    intro need st h
    rw [pickLoop]
    by_cases h0 : need = 0
    · rw [if_pos h0]; exact h
    · rw [if_neg h0]
      by_cases hclub : MAX_PER_CLUB ≤ st.clubCt p.team
      · rw [if_pos hclub]; exact ih need st h
      · rw [if_neg hclub]
        by_cases hcost : p.cost ≤ st.remaining
        · rw [if_pos hcost]
          refine ih (need - 1) _ ⟨?_, ?_⟩
          · intro t
            show bump st.clubCt p.team t = _
            unfold bump
            rw [List.filter_append, List.length_append]
            by_cases ht : t = p.team
            · rw [if_pos ht, h.1 t]
              simp [List.filter_cons, ht]
            · rw [if_neg ht, h.1 t]
              have : decide (p.team = t) = false := by
                simp
                exact fun he => ht he.symm
              simp [List.filter_cons, this]
          · intro t
            show bump st.clubCt p.team t ≤ MAX_PER_CLUB
            unfold bump
            by_cases ht : t = p.team
            · rw [if_pos ht, ht]
              omega
            · rw [if_neg ht]
              exact h.2 t
        · rw [if_neg hcost]; exact ih need st h

/-- Acceptance bound of the greedy loop: the rows added in one positional
pass all come from that pass's pool and number at most `need`. -/
theorem pickLoop_extra (pool : List Player) :
    ∀ (need : Nat) (st : SelSt),
      ∃ extra, (pickLoop pool need st).sel = st.sel ++ extra ∧
        (∀ p ∈ extra, p ∈ pool) ∧ extra.length ≤ need := by
  induction pool with
  | nil =>
    intro need st
    exact ⟨[], by simp [pickLoop], by simp, Nat.zero_le _⟩
  | cons p rest ih =>
    intro need st
    rw [pickLoop]
    by_cases h0 : need = 0
    · rw [if_pos h0]
      exact ⟨[], by simp, by simp, Nat.zero_le _⟩
    · rw [if_neg h0]
      by_cases hclub : MAX_PER_CLUB ≤ st.clubCt p.team
      · rw [if_pos hclub]
        obtain ⟨extra, hsel, hmem, hlen⟩ := ih need st
        exact ⟨extra, hsel, fun x hx => List.mem_cons_of_mem _ (hmem x hx), hlen⟩
      · rw [if_neg hclub]
        by_cases hcost : p.cost ≤ st.remaining
        · rw [if_pos hcost]
          obtain ⟨extra, hsel, hmem, hlen⟩ := ih (need - 1)
            ⟨st.sel ++ [p], bump st.clubCt p.team, st.remaining - p.cost⟩
          refine ⟨p :: extra, ?_, ?_, ?_⟩
          · rw [hsel]
            simp
          · intro x hx
            rcases List.mem_cons.mp hx with hx | hx
            · exact hx ▸ List.mem_cons_self p rest
            · exact List.mem_cons_of_mem _ (hmem x hx)
          · simp only [List.length_cons]
            omega
        · rw [if_neg hcost]
          obtain ⟨extra, hsel, hmem, hlen⟩ := ih need st
          exact ⟨extra, hsel, fun x hx => List.mem_cons_of_mem _ (hmem x hx), hlen⟩

/-- Rows of a position pool carry that position. -/
theorem posPool_et (els : List Player) (q : Nat) :
    ∀ p ∈ posPool els q, p.element_type = q := by
  intro p hp
  have hmem : p ∈ els.filter (fun p => decide (p.element_type = q)) :=
    (List.perm_insertionSort scoreGe _).mem_iff.mp hp
  simpa using (List.mem_filter.mp hmem).2

/-- Filter bound for a position-homogeneous list. -/
theorem homog_filter_le (l : List Player) (i : Nat)
    (h : ∀ p ∈ l, p.element_type = i) (n : Nat) (hn : l.length ≤ n) (q : Nat) :
    (l.filter (fun p => decide (p.element_type = q))).length ≤
      if i = q then n else 0 := by
  by_cases hiq : i = q
  · rw [if_pos hiq]
    exact le_trans (List.length_filter_le _ _) hn
  · rw [if_neg hiq]
    have hnil : l.filter (fun p => decide (p.element_type = q)) = [] := by
      rw [List.filter_eq_nil_iff]
      intro p hp
      simp [h p hp, hiq]
    simp [hnil]

/-- Arithmetic bound combining the four positional passes against the
squad shape. -/
theorem shape_pass_bound (q : Nat) :
    (if 1 = q then SQUAD_SHAPE 1 else 0) + (if 2 = q then SQUAD_SHAPE 2 else 0) +
        (if 3 = q then SQUAD_SHAPE 3 else 0) + (if 4 = q then SQUAD_SHAPE 4 else 0) ≤
      SQUAD_SHAPE q := by
  by_cases h1 : 1 = q
  · subst h1; decide
  by_cases h2 : 2 = q
  · subst h2; decide
  by_cases h3 : 3 = q
  · subst h3; decide
  by_cases h4 : 4 = q
  · subst h4; decide
  rw [if_neg h1, if_neg h2, if_neg h3, if_neg h4]
  exact Nat.zero_le _

/-- C1.  For every scored catalog and every budget, `pick_squad` returns
the ids of a set of rows whose total cost does not exceed the budget, with
at most `MAX_PER_CLUB = 3` rows from any single club and no more rows of
any position than `SQUAD_SHAPE` requires (2/5/5/3). -/
theorem pick_squad_constraints (els : List Player) (budget : Nat) :
    pick_squad els budget = (pickSquadSt els budget).sel.map Player.id ∧
    ((pickSquadSt els budget).sel.map Player.cost).sum ≤ budget ∧
    (∀ t, ((pickSquadSt els budget).sel.filter
        (fun p => decide (p.team = t))).length ≤ MAX_PER_CLUB) ∧
    (∀ q, ((pickSquadSt els budget).sel.filter
        (fun p => decide (p.element_type = q))).length ≤ SQUAD_SHAPE q) := by
  have hfold : pickSquadSt els budget =
      pickLoop (posPool els 4) (SQUAD_SHAPE 4)
        (pickLoop (posPool els 3) (SQUAD_SHAPE 3)
          (pickLoop (posPool els 2) (SQUAD_SHAPE 2)
            (pickLoop (posPool els 1) (SQUAD_SHAPE 1) ⟨[], fun _ => 0, budget⟩))) := rfl
  refine ⟨rfl, ?_, ?_, ?_⟩
  · rw [hfold]
    have e4 := pickLoop_budget (posPool els 4) (SQUAD_SHAPE 4)
      (pickLoop (posPool els 3) (SQUAD_SHAPE 3)
        (pickLoop (posPool els 2) (SQUAD_SHAPE 2)
          (pickLoop (posPool els 1) (SQUAD_SHAPE 1) ⟨[], fun _ => 0, budget⟩)))
    have e3 := pickLoop_budget (posPool els 3) (SQUAD_SHAPE 3)
      (pickLoop (posPool els 2) (SQUAD_SHAPE 2)
        (pickLoop (posPool els 1) (SQUAD_SHAPE 1) ⟨[], fun _ => 0, budget⟩))
    have e2 := pickLoop_budget (posPool els 2) (SQUAD_SHAPE 2)
      (pickLoop (posPool els 1) (SQUAD_SHAPE 1) ⟨[], fun _ => 0, budget⟩)
    have e1 := pickLoop_budget (posPool els 1) (SQUAD_SHAPE 1) ⟨[], fun _ => 0, budget⟩
    simp only [List.map_nil, List.sum_nil] at e1
    omega
  · rw [hfold]
    have hinv := pickLoop_club (posPool els 4) (SQUAD_SHAPE 4) _
      (pickLoop_club (posPool els 3) (SQUAD_SHAPE 3) _
        (pickLoop_club (posPool els 2) (SQUAD_SHAPE 2) _
          (pickLoop_club (posPool els 1) (SQUAD_SHAPE 1) ⟨[], fun _ => 0, budget⟩
            ⟨fun t => by simp, fun t => by simp [MAX_PER_CLUB]⟩)))
    intro t
    rw [← hinv.1 t]
    exact hinv.2 t
  · intro q
    obtain ⟨e1, h1, hm1, hl1⟩ :=
      pickLoop_extra (posPool els 1) (SQUAD_SHAPE 1) ⟨[], fun _ => 0, budget⟩
    obtain ⟨e2, h2, hm2, hl2⟩ := pickLoop_extra (posPool els 2) (SQUAD_SHAPE 2)
      (pickLoop (posPool els 1) (SQUAD_SHAPE 1) ⟨[], fun _ => 0, budget⟩)
    obtain ⟨e3, h3, hm3, hl3⟩ := pickLoop_extra (posPool els 3) (SQUAD_SHAPE 3)
      (pickLoop (posPool els 2) (SQUAD_SHAPE 2)
        (pickLoop (posPool els 1) (SQUAD_SHAPE 1) ⟨[], fun _ => 0, budget⟩))
    obtain ⟨e4, h4, hm4, hl4⟩ := pickLoop_extra (posPool els 4) (SQUAD_SHAPE 4)
      (pickLoop (posPool els 3) (SQUAD_SHAPE 3)
        (pickLoop (posPool els 2) (SQUAD_SHAPE 2)
          (pickLoop (posPool els 1) (SQUAD_SHAPE 1) ⟨[], fun _ => 0, budget⟩)))
    have hsel : (pickSquadSt els budget).sel = ((([] ++ e1) ++ e2) ++ e3) ++ e4 := by
      rw [hfold, h4, h3, h2, h1]
    rw [hsel]
    simp only [List.nil_append, List.filter_append, List.length_append]
    have b1 := homog_filter_le e1 1 (fun p hp => posPool_et els 1 p (hm1 p hp))
      (SQUAD_SHAPE 1) hl1 q
    have b2 := homog_filter_le e2 2 (fun p hp => posPool_et els 2 p (hm2 p hp))
      (SQUAD_SHAPE 2) hl2 q
    have b3 := homog_filter_le e3 3 (fun p hp => posPool_et els 3 p (hm3 p hp))
      (SQUAD_SHAPE 3) hl3 q
    have b4 := homog_filter_le e4 4 (fun p hp => posPool_et els 4 p (hm4 p hp))
      (SQUAD_SHAPE 4) hl4 q
    have hsum := add_le_add (add_le_add (add_le_add b1 b2) b3) b4
    exact le_trans hsum (shape_pass_bound q)

/-- Count of the rows of one position in a list. -/
def countPos (l : List Player) (q : Nat) : Nat :=
  (l.filter (fun p => decide (p.element_type = q))).length

/-- The `squad` frame of `pick_xi`: the catalog rows whose id belongs to
the squad, score-descending. -/
def xiSquad (els : List Player) (squad_ids : List Nat) : List Player :=
  sortDesc (els.filter (fun p => decide (p.id ∈ squad_ids)))

/-- Phase 1 of `pick_xi` (`satisfy minima`): for each position in the
fixed order 1-4, the top `XI_MINIMA` rows (`head(mn)`) of that position's
slice of the sorted squad, concatenated. -/
def minimaXi (S : List Player) : List Player :=
  ((S.filter (fun p => decide (p.element_type = 1))).take (XI_MINIMA 1)) ++
    (((S.filter (fun p => decide (p.element_type = 2))).take (XI_MINIMA 2)) ++
      (((S.filter (fun p => decide (p.element_type = 3))).take (XI_MINIMA 3)) ++
        ((S.filter (fun p => decide (p.element_type = 4))).take (XI_MINIMA 4))))

/-- Fill state of phase 2 of `pick_xi`: the rows chosen so far, the
position counter `pos_ct`, and the remaining open slots `rem`.  After
phase 1 the source's `pos_ct[pos]` equals the number of phase-1 rows of
each position (each pool is position-homogeneous), so the counter is
initialised to `countPos` of the phase-1 rows. -/
structure XiSt where
  xi : List Player
  ct : Nat → Nat
  rem : Nat

/-- Phase 2 of `pick_xi` (`fill remaining up to 11`): walk the sorted
squad, break when no slot remains, skip rows whose id is in the `taken`
set (frozen before the loop, as in the source), skip a second goalkeeper
and a fourth forward, accept everything else. -/
def fillLoop (taken : List Nat) : List Player → XiSt → XiSt
  | [], st => st
  | p :: rest, st =>
    if st.rem = 0 then st
    else if p.id ∈ taken then fillLoop taken rest st
    else if p.element_type = 1 ∧ 1 ≤ st.ct 1 then fillLoop taken rest st
    else if p.element_type = 4 ∧ 3 ≤ st.ct 4 then fillLoop taken rest st
    else fillLoop taken rest ⟨st.xi ++ [p], bump st.ct p.element_type, st.rem - 1⟩

/-- Final fill state of `pick_xi` on a catalog and a squad. -/
def xiFinal (els : List Player) (squad_ids : List Nat) : XiSt :=
  fillLoop ((minimaXi (xiSquad els squad_ids)).map Player.id) (xiSquad els squad_ids)
    ⟨minimaXi (xiSquad els squad_ids),
      fun q => countPos (minimaXi (xiSquad els squad_ids)) q,
      11 - (minimaXi (xiSquad els squad_ids)).length⟩

/-- Ids of the `xi` list returned by `pick_xi`. -/
def xiIdsOf (els : List Player) (squad_ids : List Nat) : List Nat :=
  (xiFinal els squad_ids).xi.map Player.id

/-- The `xi_df` frame of `pick_xi`: squad rows whose id was chosen,
re-sorted score-descending. -/
def xiDf (els : List Player) (squad_ids : List Nat) : List Player :=
  sortDesc ((xiSquad els squad_ids).filter
    (fun p => decide (p.id ∈ xiIdsOf els squad_ids)))

/-- Embedding of `pick_xi`.  The source ends with
`captain = int(xi_df.iloc[0]['id'])` and `vice = int(xi_df.iloc[1]['id'])`,
which raises `IndexError` whenever `xi_df` has fewer than two rows; that
raise is modelled by `none`. -/
def pickXi (els : List Player) (squad_ids : List Nat) :
    Option (List Nat × Nat × Nat) :=
  match xiDf els squad_ids with
  | c :: v :: _ => some (xiIdsOf els squad_ids, c.id, v.id)
  | _ => none

/-- Number of squad rows that the capped fill can ever hold: one
goalkeeper at most, three forwards at most, every other row. -/
def capCount (S : List Player) : Nat :=
  min (countPos S 1) 1 + min (countPos S 4) 3 +
    (S.filter (fun p => decide (¬ p.element_type = 1 ∧ ¬ p.element_type = 4))).length

/-- Positional count of a position-homogeneous list. -/
theorem countPos_homog (l : List Player) (i : Nat)
    (h : ∀ p ∈ l, p.element_type = i) (q : Nat) :
    countPos l q = if i = q then l.length else 0 := by
  unfold countPos
  by_cases hiq : i = q
  · rw [if_pos hiq]
    have hself : l.filter (fun p => decide (p.element_type = q)) = l :=
      List.filter_eq_self.mpr (fun p hp => by simp [h p hp, hiq])
    rw [hself]
  · rw [if_neg hiq]
    have hnil : l.filter (fun p => decide (p.element_type = q)) = [] :=
      List.filter_eq_nil_iff.mpr (fun p hp => by simp [h p hp, hiq])
    simp [hnil]

/-- Positional counts add across concatenation. -/
theorem countPos_append (a b : List Player) (q : Nat) :
    countPos (a ++ b) q = countPos a q + countPos b q := by
  unfold countPos
  rw [List.filter_append, List.length_append]

/-- Members of one phase-1 slice carry that slice's position. -/
theorem minimaSlice_et (S : List Player) (i n : Nat) :
    ∀ p ∈ (S.filter (fun p => decide (p.element_type = i))).take n,
      p.element_type = i := by
  intro p hp
  have := List.mem_of_mem_filter (List.take_subset n _ hp)
  have hmem := List.take_subset n _ hp
  simpa using (List.mem_filter.mp hmem).2

/-- Phase-1 rows come from the squad. -/
theorem minimaXi_subset (S : List Player) : ∀ p ∈ minimaXi S, p ∈ S := by
  intro p hp
  unfold minimaXi at hp
  rcases List.mem_append.mp hp with h | h
  · exact List.mem_of_mem_filter (List.take_subset _ _ h)
  rcases List.mem_append.mp h with h | h
  · exact List.mem_of_mem_filter (List.take_subset _ _ h)
  rcases List.mem_append.mp h with h | h
  · exact List.mem_of_mem_filter (List.take_subset _ _ h)
  · exact List.mem_of_mem_filter (List.take_subset _ _ h)

/-- Concatenating two id-distinct row lists drawn from an id-unique squad
keeps the ids duplicate-free. -/
theorem nodup_ids_append (S : List Player) (hS : (S.map Player.id).Nodup)
    (l1 l2 : List Player) (h1 : ∀ p ∈ l1, p ∈ S) (h2 : ∀ p ∈ l2, p ∈ S)
    (hn1 : (l1.map Player.id).Nodup) (hn2 : (l2.map Player.id).Nodup)
    (hdis : ∀ p ∈ l1, ¬ p ∈ l2) :
    ((l1 ++ l2).map Player.id).Nodup := by
  rw [List.map_append]
  refine List.Nodup.append hn1 hn2 ?_
  intro a ha1 ha2
  obtain ⟨p, hp1, hpe⟩ := List.mem_map.mp ha1
  obtain ⟨q, hq2, hqe⟩ := List.mem_map.mp ha2
  have hpq : p = q :=
    List.inj_on_of_nodup_map hS (h1 p hp1) (h2 q hq2) (hpe.trans hqe.symm)
  exact hdis p hp1 (hpq ▸ hq2)

/-- Ids of one phase-1 slice are duplicate-free. -/
theorem minimaSlice_ids_nodup (S : List Player) (hS : (S.map Player.id).Nodup)
    (i n : Nat) :
    (((S.filter (fun p => decide (p.element_type = i))).take n).map Player.id).Nodup :=
  List.Nodup.sublist
    (List.Sublist.map Player.id ((List.take_sublist _ _).trans (List.filter_sublist _)))
    hS

/-- Phase-1 ids are duplicate-free. -/
theorem minimaXi_ids_nodup (S : List Player) (hS : (S.map Player.id).Nodup) :
    ((minimaXi S).map Player.id).Nodup := by
  unfold minimaXi
  have sub1 : ∀ p ∈ (S.filter (fun p => decide (p.element_type = 1))).take (XI_MINIMA 1),
      p ∈ S :=
    fun p hp => List.mem_of_mem_filter (List.take_subset _ _ hp)
  have sub2 : ∀ p ∈ (S.filter (fun p => decide (p.element_type = 2))).take (XI_MINIMA 2),
      p ∈ S :=
    fun p hp => List.mem_of_mem_filter (List.take_subset _ _ hp)
  have sub3 : ∀ p ∈ (S.filter (fun p => decide (p.element_type = 3))).take (XI_MINIMA 3),
      p ∈ S :=
    fun p hp => List.mem_of_mem_filter (List.take_subset _ _ hp)
  have sub4 : ∀ p ∈ (S.filter (fun p => decide (p.element_type = 4))).take (XI_MINIMA 4),
      p ∈ S :=
    fun p hp => List.mem_of_mem_filter (List.take_subset _ _ hp)
  have h34 := nodup_ids_append S hS _ _ sub3 sub4
    (minimaSlice_ids_nodup S hS 3 (XI_MINIMA 3)) (minimaSlice_ids_nodup S hS 4 (XI_MINIMA 4))
    (fun p hp hp4 => by
      have := minimaSlice_et S 3 (XI_MINIMA 3) p hp
      have h4 := minimaSlice_et S 4 (XI_MINIMA 4) p hp4
      omega)
  have sub34 : ∀ p ∈ ((S.filter (fun p => decide (p.element_type = 3))).take (XI_MINIMA 3)) ++
      ((S.filter (fun p => decide (p.element_type = 4))).take (XI_MINIMA 4)), p ∈ S := by
    intro p hp
    rcases List.mem_append.mp hp with h | h
    · exact sub3 p h
    · exact sub4 p h
  have h234 := nodup_ids_append S hS _ _ sub2 sub34
    (minimaSlice_ids_nodup S hS 2 (XI_MINIMA 2)) h34
    (fun p hp hpin => by
      have h2 := minimaSlice_et S 2 (XI_MINIMA 2) p hp
      rcases List.mem_append.mp hpin with h | h
      · have := minimaSlice_et S 3 (XI_MINIMA 3) p h
        omega
      · have := minimaSlice_et S 4 (XI_MINIMA 4) p h
        omega)
  have sub234 : ∀ p ∈ ((S.filter (fun p => decide (p.element_type = 2))).take (XI_MINIMA 2)) ++
      (((S.filter (fun p => decide (p.element_type = 3))).take (XI_MINIMA 3)) ++
        ((S.filter (fun p => decide (p.element_type = 4))).take (XI_MINIMA 4))), p ∈ S := by
    intro p hp
    rcases List.mem_append.mp hp with h | h
    · exact sub2 p h
    · exact sub34 p h
  exact nodup_ids_append S hS _ _ sub1 sub234
    (minimaSlice_ids_nodup S hS 1 (XI_MINIMA 1)) h234
    (fun p hp hpin => by
      have h1 := minimaSlice_et S 1 (XI_MINIMA 1) p hp
      rcases List.mem_append.mp hpin with h | h
      · have := minimaSlice_et S 2 (XI_MINIMA 2) p h
        omega
      · rcases List.mem_append.mp h with h | h
        · have := minimaSlice_et S 3 (XI_MINIMA 3) p h
          omega
        · have := minimaSlice_et S 4 (XI_MINIMA 4) p h
          omega)

/-- The fill loop only ever appends rows it read from its input and only
raises counters. -/
theorem fillLoop_mono (taken : List Nat) (L : List Player) :
    ∀ st : XiSt,
      (∃ extra, (fillLoop taken L st).xi = st.xi ++ extra ∧ ∀ p ∈ extra, p ∈ L) ∧
      (∀ q, st.ct q ≤ (fillLoop taken L st).ct q) := by
  induction L with
  | nil =>
    intro st
    exact ⟨⟨[], by simp [fillLoop], by simp⟩, fun q => le_refl _⟩
  | cons p rest ih =>
    intro st
    rw [fillLoop]
    by_cases h0 : st.rem = 0
    · rw [if_pos h0]
      exact ⟨⟨[], by simp, by simp⟩, fun q => le_refl _⟩
    · rw [if_neg h0]
      by_cases ht : p.id ∈ taken
      · rw [if_pos ht]
        obtain ⟨⟨extra, hx, hm⟩, hct⟩ := ih st
        exact ⟨⟨extra, hx, fun x hxm => List.mem_cons_of_mem _ (hm x hxm)⟩, hct⟩
      · rw [if_neg ht]
        by_cases hc1 : p.element_type = 1 ∧ 1 ≤ st.ct 1
        · rw [if_pos hc1]
          obtain ⟨⟨extra, hx, hm⟩, hct⟩ := ih st
          exact ⟨⟨extra, hx, fun x hxm => List.mem_cons_of_mem _ (hm x hxm)⟩, hct⟩
        · rw [if_neg hc1]
          by_cases hc4 : p.element_type = 4 ∧ 3 ≤ st.ct 4
          · rw [if_pos hc4]
            obtain ⟨⟨extra, hx, hm⟩, hct⟩ := ih st
            exact ⟨⟨extra, hx, fun x hxm => List.mem_cons_of_mem _ (hm x hxm)⟩, hct⟩
          · rw [if_neg hc4]
            obtain ⟨⟨extra, hx, hm⟩, hct⟩ :=
              ih ⟨st.xi ++ [p], bump st.ct p.element_type, st.rem - 1⟩
            refine ⟨⟨p :: extra, ?_, ?_⟩, ?_⟩
            · rw [hx]
              simp
            · intro x hxm
              rcases List.mem_cons.mp hxm with hxm | hxm
              · exact hxm ▸ List.mem_cons_self p rest
              · exact List.mem_cons_of_mem _ (hm x hxm)
            · intro q
              refine le_trans ?_ (hct q)
              show st.ct q ≤ bump st.ct p.element_type q
              unfold bump
              by_cases hq : q = p.element_type
              · rw [if_pos hq]
                omega
              · rw [if_neg hq]

/-- Chosen rows plus open slots is invariant across the fill loop. -/
theorem fillLoop_len (taken : List Nat) (L : List Player) :
    ∀ st : XiSt, (fillLoop taken L st).xi.length + (fillLoop taken L st).rem =
      st.xi.length + st.rem := by
  induction L with
  | nil => intro st; rfl
  | cons p rest ih =>
    intro st
    rw [fillLoop]
    by_cases h0 : st.rem = 0
    · rw [if_pos h0]
    · rw [if_neg h0]
      by_cases ht : p.id ∈ taken
      · rw [if_pos ht]; exact ih st
      · rw [if_neg ht]
        by_cases hc1 : p.element_type = 1 ∧ 1 ≤ st.ct 1
        · rw [if_pos hc1]; exact ih st
        · rw [if_neg hc1]
          by_cases hc4 : p.element_type = 4 ∧ 3 ≤ st.ct 4
          · rw [if_pos hc4]; exact ih st
          · rw [if_neg hc4]
            rw [ih]
            simp only [List.length_append, List.length_singleton]
            omega

/-- Invariants of the fill loop: chosen ids stay duplicate-free, chosen
rows stay squad rows, the counter stays the true positional count, and the
goalkeeper and forward caps are never exceeded. -/
theorem fillLoop_inv (S : List Player) (taken : List Nat) (L : List Player) :
    ∀ st : XiSt, (L.map Player.id).Nodup → (∀ p ∈ L, p ∈ S) →
      ((st.xi.map Player.id).Nodup ∧ (∀ p ∈ st.xi, p ∈ S) ∧
        (∀ q, st.ct q = countPos st.xi q) ∧ st.ct 1 ≤ 1 ∧ st.ct 4 ≤ 3 ∧
        (∀ p ∈ L, p.id ∈ st.xi.map Player.id → p.id ∈ taken)) →
      ((fillLoop taken L st).xi.map Player.id).Nodup ∧
        (∀ p ∈ (fillLoop taken L st).xi, p ∈ S) ∧
        (∀ q, (fillLoop taken L st).ct q = countPos (fillLoop taken L st).xi q) ∧
        (fillLoop taken L st).ct 1 ≤ 1 ∧ (fillLoop taken L st).ct 4 ≤ 3 := by
  induction L with
  | nil =>
    intro st _ _ h
    exact ⟨h.1, h.2.1, h.2.2.1, h.2.2.2.1, h.2.2.2.2.1⟩
  | cons p rest ih =>
    intro st hnd hsub h
    obtain ⟨hxnd, hxS, hct, h1le, h4le, htk⟩ := h
    rw [List.map_cons, List.nodup_cons] at hnd
    have hsubr : ∀ x ∈ rest, x ∈ S := fun x hx => hsub x (List.mem_cons_of_mem _ hx)
    rw [fillLoop]
    by_cases h0 : st.rem = 0
    · rw [if_pos h0]
      exact ⟨hxnd, hxS, hct, h1le, h4le⟩
    · rw [if_neg h0]
      by_cases ht : p.id ∈ taken
      · rw [if_pos ht]
        exact ih st hnd.2 hsubr ⟨hxnd, hxS, hct, h1le, h4le,
          fun x hx hxid => htk x (List.mem_cons_of_mem _ hx) hxid⟩
      · rw [if_neg ht]
        by_cases hc1 : p.element_type = 1 ∧ 1 ≤ st.ct 1
        · rw [if_pos hc1]
          exact ih st hnd.2 hsubr ⟨hxnd, hxS, hct, h1le, h4le,
            fun x hx hxid => htk x (List.mem_cons_of_mem _ hx) hxid⟩
        · rw [if_neg hc1]
          by_cases hc4 : p.element_type = 4 ∧ 3 ≤ st.ct 4
          · rw [if_pos hc4]
            exact ih st hnd.2 hsubr ⟨hxnd, hxS, hct, h1le, h4le,
              fun x hx hxid => htk x (List.mem_cons_of_mem _ hx) hxid⟩
          · rw [if_neg hc4]
            have hpnew : ¬ p.id ∈ st.xi.map Player.id := fun hin =>
              ht (htk p (List.mem_cons_self p rest) hin)
            refine ih _ hnd.2 hsubr ⟨?_, ?_, ?_, ?_, ?_, ?_⟩
            · show ((st.xi ++ [p]).map Player.id).Nodup
              rw [List.map_append]
              refine List.Nodup.append hxnd (by simp) ?_
              intro a ha hb
              have hab : a = p.id := by simpa using hb
              exact hpnew (hab ▸ ha)
            · intro x hx
              rcases List.mem_append.mp hx with hx | hx
              · exact hxS x hx
              · have hxp : x = p := by simpa using hx
                exact hxp ▸ hsub p (List.mem_cons_self p rest)
            · intro q
              show bump st.ct p.element_type q = countPos (st.xi ++ [p]) q
              rw [countPos_append]
              unfold bump
              by_cases hq : q = p.element_type
              · rw [if_pos hq, hct q]
                have hone : countPos [p] q = 1 := by
                  unfold countPos
                  simp [List.filter_cons, hq]
                omega
              · rw [if_neg hq, hct q]
                have hzero : countPos [p] q = 0 := by
                  unfold countPos
                  have hd : decide (p.element_type = q) = false := by
                    simp
                    exact fun he => hq he.symm
                  simp [List.filter_cons, hd]
                omega
            · show bump st.ct p.element_type 1 ≤ 1
              unfold bump
              by_cases hq : (1 : Nat) = p.element_type
              · rw [if_pos hq]
                have hz : ¬ 1 ≤ st.ct 1 := fun hle => hc1 ⟨hq.symm, hle⟩
                omega
              · rw [if_neg hq]
                exact h1le
            · show bump st.ct p.element_type 4 ≤ 3
              unfold bump
              by_cases hq : (4 : Nat) = p.element_type
              · rw [if_pos hq]
                have hz : ¬ 3 ≤ st.ct 4 := fun hle => hc4 ⟨hq.symm, hle⟩
                omega
              · rw [if_neg hq]
                exact h4le
            · intro x hx hxid
              rw [show (⟨st.xi ++ [p], bump st.ct p.element_type, st.rem - 1⟩ : XiSt).xi =
                st.xi ++ [p] from rfl, List.map_append] at hxid
              rcases List.mem_append.mp hxid with hid | hid
              · exact htk x (List.mem_cons_of_mem _ hx) hid
              · exfalso
                have hxp : x.id = p.id := by simpa using hid
                exact hnd.1 (hxp ▸ List.mem_map_of_mem Player.id hx)

/-- Exhaustion analysis of the fill loop: if slots remain open at the end,
every input row was already taken before the loop, was chosen by the loop,
or is blocked by a cap that the final counter witnesses. -/
theorem fillLoop_exhaust (taken : List Nat) (L : List Player) :
    ∀ st : XiSt, (fillLoop taken L st).rem ≠ 0 →
      ∀ x ∈ L, x.id ∈ taken ∨ x.id ∈ (fillLoop taken L st).xi.map Player.id ∨
        (x.element_type = 1 ∧ 1 ≤ (fillLoop taken L st).ct 1) ∨
        (x.element_type = 4 ∧ 3 ≤ (fillLoop taken L st).ct 4) := by
  induction L with
  | nil =>
    intro st _ x hx
    cases hx
  | cons p rest ih =>
    intro st hrem x hx
    rw [fillLoop] at hrem ⊢
    by_cases h0 : st.rem = 0
    · rw [if_pos h0] at hrem
      exact absurd h0 hrem
    · rw [if_neg h0] at hrem ⊢
      by_cases ht : p.id ∈ taken
      · rw [if_pos ht] at hrem ⊢
        rcases List.mem_cons.mp hx with hxe | hxr
        · exact Or.inl (by rw [hxe]; exact ht)
        · exact ih st hrem x hxr
      · rw [if_neg ht] at hrem ⊢
        by_cases hc1 : p.element_type = 1 ∧ 1 ≤ st.ct 1
        · rw [if_pos hc1] at hrem ⊢
          rcases List.mem_cons.mp hx with hxe | hxr
          · refine Or.inr (Or.inr (Or.inl ⟨by rw [hxe]; exact hc1.1, ?_⟩))
            exact le_trans hc1.2 ((fillLoop_mono taken rest st).2 1)
          · exact ih st hrem x hxr
        · rw [if_neg hc1] at hrem ⊢
          by_cases hc4 : p.element_type = 4 ∧ 3 ≤ st.ct 4
          · rw [if_pos hc4] at hrem ⊢
            rcases List.mem_cons.mp hx with hxe | hxr
            · refine Or.inr (Or.inr (Or.inr ⟨by rw [hxe]; exact hc4.1, ?_⟩))
              exact le_trans hc4.2 ((fillLoop_mono taken rest st).2 4)
            · exact ih st hrem x hxr
          · rw [if_neg hc4] at hrem ⊢
            rcases List.mem_cons.mp hx with hxe | hxr
            · refine Or.inr (Or.inl ?_)
              obtain ⟨⟨extra, hxe2, _⟩, _⟩ :=
                fillLoop_mono taken rest ⟨st.xi ++ [p], bump st.ct p.element_type, st.rem - 1⟩
              rw [hxe2, hxe]
              exact List.mem_map_of_mem Player.id (by simp)
            · exact ih _ hrem x hxr

/-- Partition of a row list's length into goalkeepers, forwards and the
rest. -/
theorem length_pos_partition (l : List Player) :
    l.length = countPos l 1 + countPos l 4 +
      (l.filter (fun p => decide (¬ p.element_type = 1 ∧ ¬ p.element_type = 4))).length := by
  induction l with
  | nil => rfl
  | cons p rest ih =>
    unfold countPos at ih ⊢
    by_cases h1 : p.element_type = 1
    · have d1 : decide (p.element_type = 1) = true := by simpa using h1
      have d4 : decide (p.element_type = 4) = false := by simp [h1]
      have dO : decide (¬ p.element_type = 1 ∧ ¬ p.element_type = 4) = false := by
        simp [h1]
      simp only [List.length_cons, List.filter_cons, d1, d4, dO]
      simp only [eq_self_iff_true, Bool.false_eq_true, if_true, if_false, List.length_cons]
      omega
    · by_cases h4 : p.element_type = 4
      · have d1 : decide (p.element_type = 1) = false := by simp [h4]
        have d4 : decide (p.element_type = 4) = true := by simpa using h4
        have dO : decide (¬ p.element_type = 1 ∧ ¬ p.element_type = 4) = false := by
          simp [h4]
        simp only [List.length_cons, List.filter_cons, d1, d4, dO]
        simp only [eq_self_iff_true, Bool.false_eq_true, if_true, if_false, List.length_cons]
        omega
      · have d1 : decide (p.element_type = 1) = false := by simpa using h1
        have d4 : decide (p.element_type = 4) = false := by simpa using h4
        have dO : decide (¬ p.element_type = 1 ∧ ¬ p.element_type = 4) = true := by
          simpa using ⟨h1, h4⟩
        simp only [List.length_cons, List.filter_cons, d1, d4, dO]
        simp only [eq_self_iff_true, Bool.false_eq_true, if_true, if_false, List.length_cons]
        omega

/-- Counting argument shared by the lineup theorems: a duplicate-free
choice `F` out of a duplicate-free squad `S` that respects the caps (at
most one goalkeeper, at most three forwards) and leaves out only
cap-blocked rows has exactly `capCount S` rows. -/
theorem capped_count_of_exhaust (S F : List Player)
    (hS : (S.map Player.id).Nodup) (hF : (F.map Player.id).Nodup)
    (hFS : ∀ p ∈ F, p ∈ S)
    (h1 : countPos F 1 ≤ 1) (h4 : countPos F 4 ≤ 3)
    (hexh : ∀ x ∈ S, x ∈ F ∨ (x.element_type = 1 ∧ 1 ≤ countPos F 1) ∨
        (x.element_type = 4 ∧ 3 ≤ countPos F 4)) :
    F.length = capCount S := by
  have NodupS : S.Nodup := List.Nodup.of_map _ hS
  have NodupF : F.Nodup := List.Nodup.of_map _ hF
  have hle : ∀ pr : Player → Bool, (F.filter pr).length ≤ (S.filter pr).length := by
    intro pr
    refine (List.Nodup.subperm (NodupF.filter pr) ?_).length_le
    intro x hx
    exact List.mem_filter.mpr
      ⟨hFS x (List.mem_of_mem_filter hx), (List.mem_filter.mp hx).2⟩
  have hothers :
      (F.filter (fun p => decide (¬ p.element_type = 1 ∧ ¬ p.element_type = 4))).length =
        (S.filter (fun p => decide (¬ p.element_type = 1 ∧ ¬ p.element_type = 4))).length := by
    refine le_antisymm (hle _) ?_
    refine (List.Nodup.subperm (NodupS.filter _) ?_).length_le
    intro x hx
    have hxS := List.mem_of_mem_filter hx
    have hpr := (List.mem_filter.mp hx).2
    have hprop : ¬ x.element_type = 1 ∧ ¬ x.element_type = 4 := by simpa using hpr
    have hxF : x ∈ F := by
      rcases hexh x hxS with h | h | h
      · exact h
      · exact absurd h.1 hprop.1
      · exact absurd h.1 hprop.2
    exact List.mem_filter.mpr ⟨hxF, hpr⟩
  have hgk : countPos F 1 = min (countPos S 1) 1 := by
    refine le_antisymm (le_min (hle _) h1) ?_
    by_cases hall : ∀ x ∈ S, x.element_type = 1 → x ∈ F
    · refine le_trans (min_le_left _ _) ?_
      refine (List.Nodup.subperm (NodupS.filter _) ?_).length_le
      intro x hx
      have hxS := List.mem_of_mem_filter hx
      have hpr := (List.mem_filter.mp hx).2
      exact List.mem_filter.mpr ⟨hall x hxS (by simpa using hpr), hpr⟩
    · push_neg at hall
      obtain ⟨x, hxS, hx1, hxF⟩ := hall
      rcases hexh x hxS with h | h | h
      · exact absurd h hxF
      · exact le_trans (min_le_right _ _) h.2
      · exact absurd h.1 (by simp [hx1])
  have hfwd : countPos F 4 = min (countPos S 4) 3 := by
    refine le_antisymm (le_min (hle _) h4) ?_
    by_cases hall : ∀ x ∈ S, x.element_type = 4 → x ∈ F
    · refine le_trans (min_le_left _ _) ?_
      refine (List.Nodup.subperm (NodupS.filter _) ?_).length_le
      intro x hx
      have hxS := List.mem_of_mem_filter hx
      have hpr := (List.mem_filter.mp hx).2
      exact List.mem_filter.mpr ⟨hall x hxS (by simpa using hpr), hpr⟩
    · push_neg at hall
      obtain ⟨x, hxS, hx4, hxF⟩ := hall
      rcases hexh x hxS with h | h | h
      · exact absurd h hxF
      · exact absurd h.1 (by simp [hx4])
      · exact le_trans (min_le_right _ _) h.2
  rw [length_pos_partition F, hothers, hgk, hfwd]
  rfl

/-- Positional counts of the phase-1 rows, slice by slice. -/
theorem countPos_minimaXi (S : List Player) (q : Nat) :
    countPos (minimaXi S) q =
      (if 1 = q then
        ((S.filter (fun p => decide (p.element_type = 1))).take (XI_MINIMA 1)).length else 0) +
      ((if 2 = q then
        ((S.filter (fun p => decide (p.element_type = 2))).take (XI_MINIMA 2)).length else 0) +
      ((if 3 = q then
        ((S.filter (fun p => decide (p.element_type = 3))).take (XI_MINIMA 3)).length else 0) +
      (if 4 = q then
        ((S.filter (fun p => decide (p.element_type = 4))).take (XI_MINIMA 4)).length else 0))) := by
  unfold minimaXi
  rw [countPos_append, countPos_append, countPos_append,
    countPos_homog _ 1 (minimaSlice_et S 1 _) q, countPos_homog _ 2 (minimaSlice_et S 2 _) q,
    countPos_homog _ 3 (minimaSlice_et S 3 _) q, countPos_homog _ 4 (minimaSlice_et S 4 _) q]

/-- Phase 1 holds at most one goalkeeper. -/
theorem minimaXi_ct1_le (S : List Player) : countPos (minimaXi S) 1 ≤ 1 := by
  rw [countPos_minimaXi]
  have h := List.length_take_le (XI_MINIMA 1)
    (S.filter (fun p => decide (p.element_type = 1)))
  have e : XI_MINIMA 1 = 1 := by decide
  norm_num
  omega

/-- Phase 1 holds at most one forward, in particular at most three. -/
theorem minimaXi_ct4_le (S : List Player) : countPos (minimaXi S) 4 ≤ 3 := by
  rw [countPos_minimaXi]
  have h := List.length_take_le (XI_MINIMA 4)
    (S.filter (fun p => decide (p.element_type = 4)))
  have e : XI_MINIMA 4 = 1 := by decide
  norm_num
  omega

/-- Phase 1 holds at most seven rows. -/
theorem minimaXi_len_le (S : List Player) : (minimaXi S).length ≤ 7 := by
  unfold minimaXi
  simp only [List.length_append]
  have l1 := List.length_take_le (XI_MINIMA 1)
    (S.filter (fun p => decide (p.element_type = 1)))
  have l2 := List.length_take_le (XI_MINIMA 2)
    (S.filter (fun p => decide (p.element_type = 2)))
  have l3 := List.length_take_le (XI_MINIMA 3)
    (S.filter (fun p => decide (p.element_type = 3)))
  have l4 := List.length_take_le (XI_MINIMA 4)
    (S.filter (fun p => decide (p.element_type = 4)))
  have e1 : XI_MINIMA 1 = 1 := by decide
  have e2 : XI_MINIMA 2 = 3 := by decide
  have e3 : XI_MINIMA 3 = 2 := by decide
  have e4 : XI_MINIMA 4 = 1 := by decide
  omega

/-- Ids of the squad frame are duplicate-free whenever catalog ids are. -/
theorem xiSquad_ids_nodup (els : List Player) (squad_ids : List Nat)
    (hcat : (els.map Player.id).Nodup) :
    ((xiSquad els squad_ids).map Player.id).Nodup := by
  have hperm : List.Perm (xiSquad els squad_ids)
      (els.filter (fun p => decide (p.id ∈ squad_ids))) :=
    List.perm_insertionSort scoreGe _
  have hnd : ((els.filter (fun p => decide (p.id ∈ squad_ids))).map Player.id).Nodup :=
    List.Nodup.sublist (List.Sublist.map Player.id (List.filter_sublist els)) hcat
  exact ((hperm.map Player.id).nodup_iff).mpr hnd

/-- The final fill state satisfies the loop invariants. -/
theorem xiFinal_inv (els : List Player) (squad_ids : List Nat)
    (hcat : (els.map Player.id).Nodup) :
    (((xiFinal els squad_ids).xi.map Player.id).Nodup ∧
      (∀ p ∈ (xiFinal els squad_ids).xi, p ∈ xiSquad els squad_ids) ∧
      (∀ q, (xiFinal els squad_ids).ct q = countPos (xiFinal els squad_ids).xi q) ∧
      (xiFinal els squad_ids).ct 1 ≤ 1 ∧ (xiFinal els squad_ids).ct 4 ≤ 3) := by
  have hS := xiSquad_ids_nodup els squad_ids hcat
  exact fillLoop_inv (xiSquad els squad_ids)
    ((minimaXi (xiSquad els squad_ids)).map Player.id) (xiSquad els squad_ids)
    ⟨minimaXi (xiSquad els squad_ids),
      fun q => countPos (minimaXi (xiSquad els squad_ids)) q,
      11 - (minimaXi (xiSquad els squad_ids)).length⟩
    hS (fun p hp => hp)
    ⟨minimaXi_ids_nodup _ hS, minimaXi_subset _, fun q => rfl,
      minimaXi_ct1_le _, minimaXi_ct4_le _, fun p _ hid => hid⟩

/-- Chosen rows plus open slots always make eleven. -/
theorem xiFinal_len (els : List Player) (squad_ids : List Nat) :
    (xiFinal els squad_ids).xi.length + (xiFinal els squad_ids).rem = 11 := by
  have h := fillLoop_len ((minimaXi (xiSquad els squad_ids)).map Player.id)
    (xiSquad els squad_ids)
    ⟨minimaXi (xiSquad els squad_ids),
      fun q => countPos (minimaXi (xiSquad els squad_ids)) q,
      11 - (minimaXi (xiSquad els squad_ids)).length⟩
  have h7 := minimaXi_len_le (xiSquad els squad_ids)
  dsimp only at h
  unfold xiFinal
  omega

/-- A squad row whose id was chosen is itself a chosen row. -/
theorem xiFinal_mem_of_id (els : List Player) (squad_ids : List Nat)
    (hcat : (els.map Player.id).Nodup) :
    ∀ x ∈ xiSquad els squad_ids,
      x.id ∈ xiIdsOf els squad_ids → x ∈ (xiFinal els squad_ids).xi := by
  have hS := xiSquad_ids_nodup els squad_ids hcat
  obtain ⟨_, memF, _, _, _⟩ := xiFinal_inv els squad_ids hcat
  intro x hx hid
  obtain ⟨y, hy, hye⟩ := List.mem_map.mp hid
  have hyx : y = x := List.inj_on_of_nodup_map hS (memF y hy) hx hye
  exact hyx ▸ hy

/-- If the fill ends with open slots, the chosen rows number exactly
`capCount` of the squad. -/
theorem xiFinal_count (els : List Player) (squad_ids : List Nat)
    (hcat : (els.map Player.id).Nodup)
    (hrem : (xiFinal els squad_ids).rem ≠ 0) :
    (xiFinal els squad_ids).xi.length = capCount (xiSquad els squad_ids) := by
  have hS := xiSquad_ids_nodup els squad_ids hcat
  obtain ⟨ndF, memF, ctF, ct1F, ct4F⟩ := xiFinal_inv els squad_ids hcat
  have hexh : ∀ x ∈ xiSquad els squad_ids,
      x ∈ (xiFinal els squad_ids).xi ∨
      (x.element_type = 1 ∧ 1 ≤ countPos (xiFinal els squad_ids).xi 1) ∨
      (x.element_type = 4 ∧ 3 ≤ countPos (xiFinal els squad_ids).xi 4) := by
    intro x hx
    have h0 := fillLoop_exhaust ((minimaXi (xiSquad els squad_ids)).map Player.id)
      (xiSquad els squad_ids)
      ⟨minimaXi (xiSquad els squad_ids),
        fun q => countPos (minimaXi (xiSquad els squad_ids)) q,
        11 - (minimaXi (xiSquad els squad_ids)).length⟩ hrem x hx
    obtain ⟨⟨extra, hext, _⟩, _⟩ := fillLoop_mono
      ((minimaXi (xiSquad els squad_ids)).map Player.id) (xiSquad els squad_ids)
      ⟨minimaXi (xiSquad els squad_ids),
        fun q => countPos (minimaXi (xiSquad els squad_ids)) q,
        11 - (minimaXi (xiSquad els squad_ids)).length⟩
    rcases h0 with h | h | h | h
    · refine Or.inl (xiFinal_mem_of_id els squad_ids hcat x hx ?_)
      have hfe : (xiFinal els squad_ids).xi =
          minimaXi (xiSquad els squad_ids) ++ extra := hext
      unfold xiIdsOf
      rw [hfe, List.map_append]
      exact List.mem_append_left _ h
    · exact Or.inl (xiFinal_mem_of_id els squad_ids hcat x hx h)
    · refine Or.inr (Or.inl ⟨h.1, ?_⟩)
      rw [← ctF 1]
      exact h.2
    · refine Or.inr (Or.inr ⟨h.1, ?_⟩)
      rw [← ctF 4]
      exact h.2
  refine capped_count_of_exhaust (xiSquad els squad_ids) (xiFinal els squad_ids).xi
    hS ndF memF ?_ ?_ hexh
  · rw [← ctF 1]; exact ct1F
  · rw [← ctF 4]; exact ct4F

/-- The `xi_df` frame is a permutation of the chosen rows. -/
theorem xiDf_perm (els : List Player) (squad_ids : List Nat)
    (hcat : (els.map Player.id).Nodup) :
    List.Perm (xiDf els squad_ids) (xiFinal els squad_ids).xi := by
  have hS := xiSquad_ids_nodup els squad_ids hcat
  obtain ⟨ndF, memF, _, _, _⟩ := xiFinal_inv els squad_ids hcat
  have NodupS : (xiSquad els squad_ids).Nodup := List.Nodup.of_map _ hS
  have NodupF : (xiFinal els squad_ids).xi.Nodup := List.Nodup.of_map _ ndF
  have hperm1 : List.Perm (xiDf els squad_ids)
      ((xiSquad els squad_ids).filter
        (fun p => decide (p.id ∈ xiIdsOf els squad_ids))) :=
    List.perm_insertionSort scoreGe _
  have hperm2 : List.Perm
      ((xiSquad els squad_ids).filter
        (fun p => decide (p.id ∈ xiIdsOf els squad_ids)))
      (xiFinal els squad_ids).xi := by
    refine List.Subperm.antisymm ?_ ?_
    · refine List.Nodup.subperm (NodupS.filter _) ?_
      intro x hx
      have hxS := List.mem_of_mem_filter hx
      have hpr : x.id ∈ xiIdsOf els squad_ids := by
        simpa using (List.mem_filter.mp hx).2
      exact xiFinal_mem_of_id els squad_ids hcat x hxS hpr
    · refine List.Nodup.subperm NodupF ?_
      intro x hx
      refine List.mem_filter.mpr ⟨memF x hx, ?_⟩
      have hxid : x.id ∈ xiIdsOf els squad_ids := List.mem_map_of_mem Player.id hx
      simpa using hxid
  exact hperm1.trans hperm2

/-- C3 (amended).  For every catalog with duplicate-free ids and every
squad of exactly 15 rows with at least the lineup minima (1/3/2/1)
available per position, and at least 11 rows selectable under the lineup
caps (at most one goalkeeper, at most three forwards), `pick_xi` returns
exactly 11 distinct ids together with one captain and one distinct vice,
both drawn from the lineup, such that the captain's score is at least
every selected member's score and the vice's score is at least every
selected member's score except possibly the captain's. -/
theorem pickXi_full_squad (els : List Player) (squad_ids : List Nat)
    (hcat : (els.map Player.id).Nodup)
    (hlen : (xiSquad els squad_ids).length = 15)
    (hm1 : 1 ≤ countPos (xiSquad els squad_ids) 1)
    (hm2 : 3 ≤ countPos (xiSquad els squad_ids) 2)
    (hm3 : 2 ≤ countPos (xiSquad els squad_ids) 3)
    (hm4 : 1 ≤ countPos (xiSquad els squad_ids) 4)
    (hcap : 11 ≤ capCount (xiSquad els squad_ids)) :
    ∃ xiIds cap vice,
      pickXi els squad_ids = some (xiIds, cap, vice) ∧
      xiIds.length = 11 ∧ xiIds.Nodup ∧ cap ∈ xiIds ∧ vice ∈ xiIds ∧ cap ≠ vice ∧
      ∃ pc ∈ xiSquad els squad_ids, ∃ pv ∈ xiSquad els squad_ids,
        pc.id = cap ∧ pv.id = vice ∧
        (∀ p ∈ xiSquad els squad_ids, p.id ∈ xiIds → p.score ≤ pc.score) ∧
        (∀ p ∈ xiSquad els squad_ids, p.id ∈ xiIds → p.id ≠ cap → p.score ≤ pv.score) := by
  obtain ⟨ndF, memF, ctF, ct1F, ct4F⟩ := xiFinal_inv els squad_ids hcat
  have hpermDf := xiDf_perm els squad_ids hcat
  have h11 : (xiFinal els squad_ids).xi.length = 11 := by
    have hlen2 := xiFinal_len els squad_ids
    by_cases hrem : (xiFinal els squad_ids).rem = 0
    · omega
    · have hcount := xiFinal_count els squad_ids hcat hrem
      omega
  have hdfLen : (xiDf els squad_ids).length = 11 := by
    rw [hpermDf.length_eq]
    exact h11
  rcases hxdf : xiDf els squad_ids with _ | ⟨c, _ | ⟨v, rest⟩⟩
  · rw [hxdf] at hdfLen
    simp at hdfLen
  · rw [hxdf] at hdfLen
    simp at hdfLen
  have hpx : pickXi els squad_ids = some (xiIdsOf els squad_ids, c.id, v.id) := by
    unfold pickXi
    rw [hxdf]
  have hsorted : List.Sorted scoreGe (xiDf els squad_ids) :=
    List.sorted_insertionSort scoreGe _
  rw [hxdf] at hsorted hpermDf
  rw [List.sorted_cons] at hsorted
  obtain ⟨hcall, hsorted2⟩ := hsorted
  rw [List.sorted_cons] at hsorted2
  obtain ⟨hvall, _⟩ := hsorted2
  have hndDf : ((c :: v :: rest).map Player.id).Nodup :=
    (hpermDf.map Player.id).nodup_iff.mpr ndF
  have hcv : c.id ≠ v.id := by
    rw [List.map_cons, List.map_cons, List.nodup_cons] at hndDf
    exact fun he => hndDf.1 (he ▸ List.mem_cons_self v.id (rest.map Player.id))
  have hcxi : c ∈ (xiFinal els squad_ids).xi :=
    hpermDf.subset (List.mem_cons_self c (v :: rest))
  have hvxi : v ∈ (xiFinal els squad_ids).xi :=
    hpermDf.subset (List.mem_cons_of_mem c (List.mem_cons_self v rest))
  refine ⟨xiIdsOf els squad_ids, c.id, v.id, hpx, ?_, ndF, ?_, ?_, hcv,
    c, memF c hcxi, v, memF v hvxi, rfl, rfl, ?_, ?_⟩
  · show ((xiFinal els squad_ids).xi.map Player.id).length = 11
    rw [List.length_map]
    exact h11
  · exact List.mem_map_of_mem Player.id hcxi
  · exact List.mem_map_of_mem Player.id hvxi
  · intro p hpS hpid
    have hpxi : p ∈ (xiFinal els squad_ids).xi :=
      xiFinal_mem_of_id els squad_ids hcat p hpS hpid
    have hpDf : p ∈ c :: v :: rest := hpermDf.symm.subset hpxi
    rcases List.mem_cons.mp hpDf with hpe | hpDf2
    · rw [hpe]
    · exact hcall p hpDf2
  · intro p hpS hpid hpne
    have hpxi : p ∈ (xiFinal els squad_ids).xi :=
      xiFinal_mem_of_id els squad_ids hcat p hpS hpid
    have hpDf : p ∈ c :: v :: rest := hpermDf.symm.subset hpxi
    rcases List.mem_cons.mp hpDf with hpe | hpDf2
    · exact absurd (hpe ▸ rfl) hpne
    · rcases List.mem_cons.mp hpDf2 with hpe | hpDf3
      · rw [hpe]
      · exact hvall p hpDf3

/-- C9 (amended).  For every catalog with duplicate-free ids and every
squad of fewer than 11 rows of which at least two are selectable under the
lineup caps (at most one goalkeeper, at most three forwards), `pick_xi`
succeeds and returns every cap-selectable row — as many members as are
available subject to the caps — together with a captain and a distinct
vice. -/
theorem pickXi_degraded (els : List Player) (squad_ids : List Nat)
    (hcat : (els.map Player.id).Nodup)
    (hlt : (xiSquad els squad_ids).length < 11)
    (h2 : 2 ≤ capCount (xiSquad els squad_ids)) :
    ∃ xiIds cap vice,
      pickXi els squad_ids = some (xiIds, cap, vice) ∧
      xiIds.length = capCount (xiSquad els squad_ids) ∧
      cap ∈ xiIds ∧ vice ∈ xiIds ∧ cap ≠ vice := by
  obtain ⟨ndF, memF, _, _, _⟩ := xiFinal_inv els squad_ids hcat
  have hsub : (xiFinal els squad_ids).xi.Subperm (xiSquad els squad_ids) :=
    List.Nodup.subperm (List.Nodup.of_map _ ndF) (fun p hp => memF p hp)
  have hlenle : (xiFinal els squad_ids).xi.length ≤ (xiSquad els squad_ids).length :=
    hsub.length_le
  have hlen2 := xiFinal_len els squad_ids
  have hrem : (xiFinal els squad_ids).rem ≠ 0 := by omega
  have hcount := xiFinal_count els squad_ids hcat hrem
  have hpermDf := xiDf_perm els squad_ids hcat
  have hdfLen : (xiDf els squad_ids).length = capCount (xiSquad els squad_ids) := by
    rw [hpermDf.length_eq]
    exact hcount
  rcases hxdf : xiDf els squad_ids with _ | ⟨c, _ | ⟨v, rest⟩⟩
  · rw [hxdf] at hdfLen
    simp at hdfLen
    omega
  · rw [hxdf] at hdfLen
    simp at hdfLen
    omega
  have hpx : pickXi els squad_ids = some (xiIdsOf els squad_ids, c.id, v.id) := by
    unfold pickXi
    rw [hxdf]
  rw [hxdf] at hpermDf
  have hndDf : ((c :: v :: rest).map Player.id).Nodup :=
    (hpermDf.map Player.id).nodup_iff.mpr ndF
  have hcv : c.id ≠ v.id := by
    rw [List.map_cons, List.map_cons, List.nodup_cons] at hndDf
    exact fun he => hndDf.1 (he ▸ List.mem_cons_self v.id (rest.map Player.id))
  have hcxi : c ∈ (xiFinal els squad_ids).xi :=
    hpermDf.subset (List.mem_cons_self c (v :: rest))
  have hvxi : v ∈ (xiFinal els squad_ids).xi :=
    hpermDf.subset (List.mem_cons_of_mem c (List.mem_cons_self v rest))
  refine ⟨xiIdsOf els squad_ids, c.id, v.id, hpx, ?_,
    List.mem_map_of_mem Player.id hcxi, List.mem_map_of_mem Player.id hvxi, hcv⟩
  show ((xiFinal els squad_ids).xi.map Player.id).length = _
  rw [List.length_map]
  exact hcount

/-- Squad of 15 with nine goalkeepers, three defenders, two midfielders
and one forward: it satisfies C3's stated hypotheses, yet the caps leave
the lineup short. -/
def gkHeavyCat : List Player :=
  [⟨1, 1, 1, 40, 100⟩, ⟨2, 1, 2, 40, 99⟩, ⟨3, 1, 3, 40, 98⟩, ⟨4, 1, 4, 40, 97⟩,
   ⟨5, 1, 5, 40, 96⟩, ⟨6, 1, 6, 40, 95⟩, ⟨7, 1, 7, 40, 94⟩, ⟨8, 1, 8, 40, 93⟩,
   ⟨9, 1, 9, 40, 92⟩, ⟨10, 2, 10, 40, 91⟩, ⟨11, 2, 11, 40, 90⟩, ⟨12, 2, 12, 40, 89⟩,
   ⟨13, 3, 13, 40, 88⟩, ⟨14, 3, 14, 40, 87⟩, ⟨15, 4, 15, 40, 86⟩]

/-- Ids of the goalkeeper-heavy squad. -/
def gkHeavyIds : List Nat := [1, 2, 3, 4, 5, 6, 7, 8, 9, 10, 11, 12, 13, 14, 15]

/-- C3 (counterexample).  The goalkeeper-heavy squad has exactly 15
members and meets every lineup minimum (9/3/2/1 against 1/3/2/1), yet
`pick_xi` returns only 7 ids: the eight surplus goalkeepers are blocked by
the one-goalkeeper cap and nothing else is left to fill with. -/
theorem pickXi_not_always_eleven :
    (xiSquad gkHeavyCat gkHeavyIds).length = 15 ∧
    1 ≤ countPos (xiSquad gkHeavyCat gkHeavyIds) 1 ∧
    3 ≤ countPos (xiSquad gkHeavyCat gkHeavyIds) 2 ∧
    2 ≤ countPos (xiSquad gkHeavyCat gkHeavyIds) 3 ∧
    1 ≤ countPos (xiSquad gkHeavyCat gkHeavyIds) 4 ∧
    (pickXi gkHeavyCat gkHeavyIds).map (fun r => r.1.length) = some 7 := by
  decide

/-- Standard-shape squad (2/5/5/3) used to instantiate the lineup
theorems. -/
def stdCat : List Player :=
  [⟨1, 1, 1, 40, 100⟩, ⟨2, 1, 2, 40, 99⟩, ⟨3, 2, 3, 40, 98⟩, ⟨4, 2, 4, 40, 97⟩,
   ⟨5, 2, 5, 40, 96⟩, ⟨6, 2, 6, 40, 95⟩, ⟨7, 2, 7, 40, 94⟩, ⟨8, 3, 8, 40, 93⟩,
   ⟨9, 3, 9, 40, 92⟩, ⟨10, 3, 10, 40, 91⟩, ⟨11, 3, 11, 40, 90⟩, ⟨12, 3, 12, 40, 89⟩,
   ⟨13, 4, 13, 40, 88⟩, ⟨14, 4, 14, 40, 87⟩, ⟨15, 4, 15, 40, 86⟩]

/-- Ids of the standard-shape squad. -/
def stdIds : List Nat := [1, 2, 3, 4, 5, 6, 7, 8, 9, 10, 11, 12, 13, 14, 15]

/-- Witness for C3: `pickXi_full_squad` applied at the standard-shape
squad, with each hypothesis checked by evaluation. -/
theorem pickXi_full_squad_witness :
    ((stdCat.map Player.id).Nodup ∧ (xiSquad stdCat stdIds).length = 15 ∧
      1 ≤ countPos (xiSquad stdCat stdIds) 1 ∧
      3 ≤ countPos (xiSquad stdCat stdIds) 2 ∧
      2 ≤ countPos (xiSquad stdCat stdIds) 3 ∧
      1 ≤ countPos (xiSquad stdCat stdIds) 4 ∧
      11 ≤ capCount (xiSquad stdCat stdIds)) ∧
    (∃ xiIds cap vice,
      pickXi stdCat stdIds = some (xiIds, cap, vice) ∧
      xiIds.length = 11 ∧ xiIds.Nodup ∧ cap ∈ xiIds ∧ vice ∈ xiIds ∧ cap ≠ vice ∧
      ∃ pc ∈ xiSquad stdCat stdIds, ∃ pv ∈ xiSquad stdCat stdIds,
        pc.id = cap ∧ pv.id = vice ∧
        (∀ p ∈ xiSquad stdCat stdIds, p.id ∈ xiIds → p.score ≤ pc.score) ∧
        (∀ p ∈ xiSquad stdCat stdIds, p.id ∈ xiIds → p.id ≠ cap → p.score ≤ pv.score)) :=
  ⟨⟨by decide, by decide, by decide, by decide, by decide, by decide, by decide⟩,
    pickXi_full_squad stdCat stdIds (by decide) (by decide) (by decide) (by decide)
      (by decide) (by decide) (by decide)⟩

/-- C9 (counterexample).  The claim asserts `pick_xi` is defined for
squads of 0 or 1 members; on the source the closing `iloc[0]`/`iloc[1]`
accesses raise `IndexError` there (modelled `none`). -/
theorem pickXi_tiny_squad_raises :
    pickXi [] [] = none ∧ pickXi [⟨1, 1, 1, 40, 5⟩] [1] = none := by
  decide

/-- Degraded six-member squad (1/2/2/1) used to instantiate
`pickXi_degraded`. -/
def smallCat : List Player :=
  [⟨1, 1, 1, 40, 10⟩, ⟨2, 2, 2, 40, 9⟩, ⟨3, 2, 3, 40, 8⟩,
   ⟨4, 3, 4, 40, 7⟩, ⟨5, 3, 5, 40, 6⟩, ⟨6, 4, 6, 40, 5⟩]

/-- Ids of the degraded squad. -/
def smallIds : List Nat := [1, 2, 3, 4, 5, 6]

/-- Witness for C9: `pickXi_degraded` applied at the six-member squad. -/
theorem pickXi_degraded_witness :
    ((smallCat.map Player.id).Nodup ∧ (xiSquad smallCat smallIds).length < 11 ∧
      2 ≤ capCount (xiSquad smallCat smallIds)) ∧
    (∃ xiIds cap vice,
      pickXi smallCat smallIds = some (xiIds, cap, vice) ∧
      xiIds.length = capCount (xiSquad smallCat smallIds) ∧
      cap ∈ xiIds ∧ vice ∈ xiIds ∧ cap ≠ vice) :=
  ⟨⟨by decide, by decide, by decide⟩,
    pickXi_degraded smallCat smallIds (by decide) (by decide) (by decide)⟩

/-- GW2+ target list of `weekly_routine`: `pick_squad(scored,
BUDGET_TENTHS)`. -/
def gw2Target (els : List Player) : List Nat := pick_squad els BUDGET_TENTHS

/-- Desired roster of the GW2+ path. -/
def gw2Desired (els : List Player) (current : List Nat) : List Nat :=
  desiredRoster current (gw2Target els)

/-- Embedding of `xi_source = desired if len(desired) == 15 else
current_picks` in `weekly_routine`. -/
def gw2XiSource (els : List Player) (current : List Nat) : List Nat :=
  if (gw2Desired els current).length = 15 then gw2Desired els current else current

/-- Transfers of the GW2+ path. -/
def gw2Transfers (els : List Player) (current : List Nat) (free : Int) :
    List (Nat × Nat) :=
  transfersPlan current (gw2Target els) free

/-- Roster that results from actually applying a plan's swaps to the
current roster — the claim's notion of the post-plan roster; the source
never computes this value. -/
def rosterAfterPlan (current : List Nat) (plan : List (Nat × Nat)) : List Nat :=
  current.filter (fun pid => decide (¬ pid ∈ plan.map Prod.fst)) ++ plan.map Prod.snd

/-- Catalog of 18 rows whose top-15 target drifts from the owned roster in
three members. -/
def driftCat : List Player :=
  [⟨1, 1, 1, 50, 100⟩, ⟨2, 1, 2, 50, 99⟩, ⟨3, 2, 3, 50, 98⟩, ⟨4, 2, 4, 50, 97⟩,
   ⟨5, 2, 5, 50, 96⟩, ⟨6, 2, 6, 50, 95⟩, ⟨7, 2, 7, 50, 94⟩, ⟨8, 3, 8, 50, 93⟩,
   ⟨9, 3, 9, 50, 92⟩, ⟨10, 3, 10, 50, 91⟩, ⟨11, 3, 11, 50, 90⟩, ⟨12, 3, 12, 50, 89⟩,
   ⟨13, 4, 13, 50, 88⟩, ⟨14, 4, 14, 50, 87⟩, ⟨15, 4, 15, 50, 86⟩,
   ⟨16, 1, 16, 50, 10⟩, ⟨17, 2, 17, 50, 9⟩, ⟨18, 3, 18, 50, 8⟩]

/-- Owned roster for the drift scenario: three weak owned rows (16, 17,
18) stand in for target members 2, 7 and 12. -/
def driftCur : List Nat := [1, 16, 3, 4, 5, 6, 17, 8, 9, 10, 11, 18, 13, 14, 15]

/-- C10.  In the GW2+ path, whenever the desired roster reaches 15 ids
the lineup source is that full desired roster, not the roster left by the
accepted plan; consequently, when the roster drifts from the desired
roster by more members than the free transfers allow, the computed lineup
can contain ids that are not owned after the plan's swaps.  The drift
catalog witnesses this: the roster differs from the desired roster in
three members, one free transfer yields the single swap out 16 / in 2,
and the returned lineup contains id 7, which is not owned after that
swap. -/
theorem gw2_lineup_from_desired :
    (∀ els current, (gw2Desired els current).length = 15 →
      gw2XiSource els current = gw2Desired els current) ∧
    ((gw2Transfers driftCat driftCur 1).length = 1 ∧
      2 ≤ (driftCur.filter
        (fun x => decide (¬ x ∈ gw2Desired driftCat driftCur))).length ∧
      7 ∈ ((pickXi driftCat (gw2XiSource driftCat driftCur)).map
        (fun r => r.1)).getD [] ∧
      ¬ 7 ∈ rosterAfterPlan driftCur (gw2Transfers driftCat driftCur 1)) := by
  constructor
  · intro els current h
    unfold gw2XiSource
    rw [if_pos h]
  · exact ⟨by decide, by decide, by decide, by decide⟩

/-- Witness for C10: on the drift catalog the desired roster reaches 15
ids and the lineup source is the desired roster. -/
theorem gw2_lineup_from_desired_witness :
    (gw2Desired driftCat driftCur).length = 15 ∧
    gw2XiSource driftCat driftCur = gw2Desired driftCat driftCur :=
  ⟨by decide, gw2_lineup_from_desired.1 driftCat driftCur (by decide)⟩
